import Mathlib

/-!
Shallow embedding of the quiz application (`src/app.py`) for checking its
specification.  Python strings are modelled as `List Char` (sequences of
Unicode scalar values).  The database is a list of rows; connection failure
and the per-call random shuffle are explicit parameters.  Raised exceptions
are modelled with `Except`.
-/

/-! ## Python character primitives -/

/-- Model of `str.upper()` applied to a one-character string, restricted to the
ASCII range used by the application (`A`–`D` option letters). -/
def pyUpper1 (c : Char) : Char :=
  if 97 ≤ c.toNat ∧ c.toNat ≤ 122 then Char.ofNat (c.toNat - 32) else c

/-- Model of `str.lower()` applied to one character, ASCII range. -/
def pyLower1 (c : Char) : Char :=
  if 65 ≤ c.toNat ∧ c.toNat ≤ 90 then Char.ofNat (c.toNat + 32) else c

/-- Model of `s.startswith(p)`: the first argument is the pattern. -/
def pyStartsWith : List Char → List Char → Bool
  | [], _ => true
  | _ :: _, [] => false
  | p :: ps, c :: cs => p == c && pyStartsWith ps cs

/-! ## Python value model

The values of the record dictionaries produced by `json.loads` on the AI
responses.  The application only ever stores strings and lists of strings in
those fields; `other` stands for any value `json.dumps` cannot serialize. -/

inductive PyVal where
  | str : List Char → PyVal
  | strList : List (List Char) → PyVal
  | other : PyVal

/-- A raw AI-produced record: a Python dict as an insertion-ordered list of
key/value bindings (later bindings shadow earlier ones, as in a dict). -/
def RawQ : Type := List (List Char × PyVal)

/-- One row of the `questions` table as written by `save_questions_to_db`:
`options` holds the serialized (JSON text) form. -/
structure Row where
  subject : List Char
  question : PyVal
  options : List Char
  answer : PyVal
  explanation : PyVal
  source : List Char

/-- A record as returned by `get_random_quiz`: `options` is the result of
`json.loads` on the stored text (`none` models a parse exception). -/
structure QRow where
  question : PyVal
  options : Option (List (List Char))
  answer : PyVal
  explanation : PyVal

/-- A question as consumed by the quiz tab (all fields are strings there). -/
structure QuizQ where
  question : List Char
  options : List (List Char)
  answer : List Char
  explanation : List Char

def qKey : List Char := ['q', 'u', 'e', 's', 't', 'i', 'o', 'n']
def oKey : List Char := ['o', 'p', 't', 'i', 'o', 'n', 's']
def aKey : List Char := ['a', 'n', 's', 'w', 'e', 'r']
def eKey : List Char := ['e', 'x', 'p', 'l', 'a', 'n', 'a', 't', 'i', 'o', 'n']

/-- Default text for a missing `explanation` field. -/
def explDefault : List Char :=
  ['N', 'o', ' ', 'e', 'x', 'p', 'l', 'a', 'n', 'a', 't', 'i', 'o', 'n', ' ',
   'p', 'r', 'o', 'v', 'i', 'd', 'e', 'd', '.']

/-- Lookup in a Python dict modelled as a binding list: the last binding for a
key wins, `none` when the key is absent. -/
def dictGet? (q : RawQ) (key : List Char) : Option PyVal :=
  match (List.reverse q).find? (fun kv => kv.1 == key) with
  | some kv => some kv.2
  | none => none

/-- Model of the comprehension ``{k.lower(): v for k, v in q.items()}``. -/
def lowerKeys (q : RawQ) : RawQ :=
  q.map (fun kv => (kv.1.map pyLower1, kv.2))

/-! ## JSON serialization (`json.dumps` with its defaults) -/

/-- Lowercase hex digit, as emitted by `json.dumps`. -/
def hexDig (k : Nat) : Char :=
  if k < 10 then Char.ofNat (48 + k) else Char.ofNat (87 + k)

/-- Four-digit hex form of `n < 65536`. -/
def hex4 (n : Nat) : List Char :=
  [hexDig (n / 4096 % 16), hexDig (n / 256 % 16), hexDig (n / 16 % 16),
   hexDig (n % 16)]

/-- Escape of one character inside a JSON string literal, following
`json.dumps` with `ensure_ascii=True`: the two-character escapes, `\uXXXX`
for other control or non-ASCII characters, and surrogate pairs above
U+FFFF. -/
def escChar (c : Char) : List Char :=
  if c = '"' then ['\\', '"']
  else if c = '\\' then ['\\', '\\']
  else if c = Char.ofNat 8 then ['\\', 'b']
  else if c = Char.ofNat 12 then ['\\', 'f']
  else if c = '\n' then ['\\', 'n']
  else if c = Char.ofNat 13 then ['\\', 'r']
  else if c = '\t' then ['\\', 't']
  else if c.toNat < 32 ∨ 126 < c.toNat then
    if c.toNat < 65536 then '\\' :: 'u' :: hex4 c.toNat
    else
      ('\\' :: 'u' :: hex4 (55296 + (c.toNat - 65536) / 1024)) ++
      ('\\' :: 'u' :: hex4 (56320 + (c.toNat - 65536) % 1024))
  else [c]

def escapeStr : List Char → List Char
  | [] => []
  | c :: s => escChar c ++ escapeStr s

/-- JSON string literal for `s`. -/
def quoteStr (s : List Char) : List Char :=
  '"' :: escapeStr s ++ ['"']

/-- Joins parts with the default `json.dumps` item separator `", "`. -/
def commaJoin : List (List Char) → List Char
  | [] => []
  | [x] => x
  | x :: y :: xs => x ++ ',' :: ' ' :: commaJoin (y :: xs)

/-- Tail form of `commaJoin` used in proofs: each element is preceded by
`", "`. -/
def joinTail : List (List Char) → List Char
  | [] => []
  | y :: ys => ',' :: ' ' :: quoteStr y ++ joinTail ys

/-- Serialized form `json.dumps` produces for a list of strings. -/
def dumpsOptions (l : List (List Char)) : List Char :=
  '[' :: commaJoin (l.map quoteStr) ++ [']']

/-- Model of `json.dumps` on a record field value; `none` models the
`TypeError` raised on a non-serializable value. -/
def dumpsVal : PyVal → Option (List Char)
  | PyVal.str s => some (quoteStr s)
  | PyVal.strList l => some (dumpsOptions l)
  | PyVal.other => none

/-! ## JSON parsing (`json.loads` on the payload shapes the app stores) -/

/-- Hex digit value of a character, as accepted by `json.loads`. -/
def hexVal (c : Char) : Option Nat :=
  if 48 ≤ c.toNat ∧ c.toNat ≤ 57 then some (c.toNat - 48)
  else if 97 ≤ c.toNat ∧ c.toNat ≤ 102 then some (c.toNat - 87)
  else if 65 ≤ c.toNat ∧ c.toNat ≤ 70 then some (c.toNat - 55)
  else none

/-- Scanner state inside a JSON string literal. -/
inductive PState where
  | norm
  | esc
  | hx (pending : Option Nat) (cnt : Nat) (acc0 : Nat)
  | hiSlash (h : Nat)
  | hiU (h : Nat)

/-- Character-at-a-time scan of a JSON string literal body (after the opening
quote): returns the decoded content and the input following the closing
quote.  Escapes and `\uXXXX` forms (with surrogate pairs) are decoded; raw
control characters are rejected as `json.loads` does. -/
def pjs : PState → List Char → List Char → Option (List Char × List Char)
  | _, _, [] => none
  | PState.norm, acc, c :: r =>
    if c = '"' then some (acc.reverse, r)
    else if c = '\\' then pjs PState.esc acc r
    else if c.toNat < 32 then none
    else pjs PState.norm (c :: acc) r
  | PState.esc, acc, c :: r =>
    if c = '"' then pjs PState.norm ('"' :: acc) r
    else if c = '\\' then pjs PState.norm ('\\' :: acc) r
    else if c = '/' then pjs PState.norm ('/' :: acc) r
    else if c = 'b' then pjs PState.norm (Char.ofNat 8 :: acc) r
    else if c = 'f' then pjs PState.norm (Char.ofNat 12 :: acc) r
    else if c = 'n' then pjs PState.norm ('\n' :: acc) r
    else if c = 'r' then pjs PState.norm (Char.ofNat 13 :: acc) r
    else if c = 't' then pjs PState.norm ('\t' :: acc) r
    else if c = 'u' then pjs (PState.hx none 0 0) acc r
    else none
  | PState.hx pending cnt acc0, acc, c :: r =>
    match hexVal c with
    | none => none
    | some v =>
      if cnt < 3 then pjs (PState.hx pending (cnt + 1) (acc0 * 16 + v)) acc r
      else
        match pending with
        | none =>
          if 55296 ≤ acc0 * 16 + v ∧ acc0 * 16 + v ≤ 56319 then
            pjs (PState.hiSlash (acc0 * 16 + v)) acc r
          else if 56320 ≤ acc0 * 16 + v ∧ acc0 * 16 + v ≤ 57343 then none
          else pjs PState.norm (Char.ofNat (acc0 * 16 + v) :: acc) r
        | some h =>
          if 56320 ≤ acc0 * 16 + v ∧ acc0 * 16 + v ≤ 57343 then
            pjs PState.norm
              (Char.ofNat (65536 + (h - 55296) * 1024 + (acc0 * 16 + v - 56320)) :: acc) r
          else none
  | PState.hiSlash h, acc, c :: r =>
    if c = '\\' then pjs (PState.hiU h) acc r else none
  | PState.hiU h, acc, c :: r =>
    if c = 'u' then pjs (PState.hx (some h) 0 0) acc r else none

/-- Parses one JSON string literal (including the opening quote). -/
def parseOneStr : List Char → Option (List Char × List Char)
  | '"' :: r => pjs PState.norm [] r
  | _ => none

def isWsChar (c : Char) : Bool :=
  c.toNat = 32 || c.toNat = 9 || c.toNat = 10 || c.toNat = 13

def skipWs : List Char → List Char
  | [] => []
  | c :: r => if isWsChar c then skipWs r else c :: r

/-- Parses the comma-separated string elements of a JSON array up to and past
the closing `]`; the fuel argument bounds the number of elements. -/
def parseElemsF : Nat → List Char → Option (List (List Char) × List Char)
  | 0, _ => none
  | f + 1, l =>
    match parseOneStr l with
    | none => none
    | some (s, r) =>
      match skipWs r with
      | ',' :: r2 =>
        (match parseElemsF f (skipWs r2) with
         | some (elems, rest) => some (s :: elems, rest)
         | none => none)
      | ']' :: r2 => some ([s], r2)
      | _ => none

/-- Model of `json.loads` on the serialized `options` column: a JSON array of
strings, with nothing but whitespace around it.  `none` models the
`JSONDecodeError` exception. -/
def loadsStrList (t : List Char) : Option (List (List Char)) :=
  match skipWs t with
  | '[' :: r =>
    (match skipWs r with
     | ']' :: r2 => if skipWs r2 = [] then some [] else none
     | r1 =>
       match parseElemsF (t.length + 1) r1 with
       | some (elems, rest) => if skipWs rest = [] then some elems else none
       | none => none)
  | _ => none

/-- Parses one JSON value of the shapes the AI contract produces: a string, or
an array of strings. -/
def parseValF (l : List Char) : Option (PyVal × List Char) :=
  match l with
  | '"' :: r =>
    (match pjs PState.norm [] r with
     | some (s, t) => some (PyVal.str s, t)
     | none => none)
  | '[' :: r =>
    (match skipWs r with
     | ']' :: r2 => some (PyVal.strList [], r2)
     | r1 =>
       match parseElemsF (r1.length + 1) r1 with
       | some (elems, rest) => some (PyVal.strList elems, rest)
       | none => none)
  | _ => none

/-- Parses the `"key": value` pairs of a JSON object up to and past the
closing brace. -/
def parsePairsF : Nat → List Char → Option (RawQ × List Char)
  | 0, _ => none
  | f + 1, l =>
    match parseOneStr l with
    | none => none
    | some (k, r) =>
      match skipWs r with
      | ':' :: r2 =>
        (match parseValF (skipWs r2) with
         | none => none
         | some (v, r3) =>
           match skipWs r3 with
           | ',' :: r4 =>
             (match parsePairsF f (skipWs r4) with
              | some (pairs, rest) => some ((k, v) :: pairs, rest)
              | none => none)
           | '\x7d' :: r4 => some ([(k, v)], r4)
           | _ => none)
      | _ => none

/-- Parses one JSON object into a raw record. -/
def parseObjF (f : Nat) (l : List Char) : Option (RawQ × List Char) :=
  match l with
  | '\x7b' :: r =>
    (match skipWs r with
     | '\x7d' :: r2 => some (([] : List (List Char × PyVal)), r2)
     | r1 => parsePairsF f r1)
  | _ => none

/-- Parses the comma-separated objects of a JSON array up to and past the
closing `]`. -/
def parseObjsF : Nat → List Char → Option (List RawQ × List Char)
  | 0, _ => none
  | f + 1, l =>
    match parseObjF (f + 1) l with
    | none => none
    | some (obj, r) =>
      match skipWs r with
      | ',' :: r2 =>
        (match parseObjsF f (skipWs r2) with
         | some (objs, rest) => some (obj :: objs, rest)
         | none => none)
      | ']' :: r2 => some ([obj], r2)
      | _ => none

/-- Model of `json.loads` on an AI response: a JSON array of record objects.
`none` models the parse exception caught in `generate_batch_with_vision`. -/
def loadsObjs (t : List Char) : Option (List RawQ) :=
  match skipWs t with
  | '[' :: r =>
    (match skipWs r with
     | ']' :: r2 => if skipWs r2 = [] then some [] else none
     | r1 =>
       match parseObjsF (t.length + 1) r1 with
       | some (objs, rest) => if skipWs rest = [] then some objs else none
       | none => none)
  | _ => none

/-! ## Question store (`save_questions_to_db`, `get_random_quiz`,
`get_db_stats`)

The connection is a `Bool` parameter (`false` models `get_db_connection`
returning `None`); the table is a `List Row`.  A raised exception inside a
call is an `Except.error`; because `conn.commit()` runs only after the whole
loop, an exception leaves the table unchanged. -/

/-- Presence check of the three required keys after lowercasing, exactly as
`save_questions_to_db` performs it (`'question' in q_lower and ...`). -/
def hasReqKeys (q : RawQ) : Bool :=
  ((dictGet? (lowerKeys q) qKey).isSome && (dictGet? (lowerKeys q) oKey).isSome)
    && (dictGet? (lowerKeys q) aKey).isSome

/-- Row built for a record that passed the key check (fields read from the
lowercased dict; missing `explanation` defaults). -/
def rowOf (subj fn : List Char) (q : RawQ) : Row :=
  { subject := subj
    question := (dictGet? (lowerKeys q) qKey).getD PyVal.other
    options := (dumpsVal ((dictGet? (lowerKeys q) oKey).getD PyVal.other)).getD []
    answer := (dictGet? (lowerKeys q) aKey).getD PyVal.other
    explanation := (dictGet? (lowerKeys q) eKey).getD (PyVal.str explDefault)
    source := fn }

/-- The `for q in questions` loop of `save_questions_to_db`: accumulates the
pending (uncommitted) inserts and the counter; a `json.dumps` failure raises,
aborting the loop. -/
def saveLoop : List RawQ → List Char → List Char → List Row → Nat →
    Except Unit (List Row × Nat)
  | [], _, _, pending, count => Except.ok (pending, count)
  | q :: rest, subj, fn, pending, count =>
    if hasReqKeys q then
      match dumpsVal ((dictGet? (lowerKeys q) oKey).getD PyVal.other) with
      | none => Except.error ()
      | some _ => saveLoop rest subj fn (pending ++ [rowOf subj fn q]) (count + 1)
    else saveLoop rest subj fn pending count

/-- Model of `save_questions_to_db`: returns the Python return value (`ok
count`, or `error` for an uncaught exception) together with the table after
the call.  On exception the commit never runs, so the table is unchanged. -/
def save_questions_to_db (conn : Bool) (questions : List RawQ)
    (subject filename : List Char) (db : List Row) :
    Except Unit Nat × List Row :=
  if !conn then (Except.ok 0, db)
  else
    match saveLoop questions subject filename [] 0 with
    | Except.ok (pending, count) => (Except.ok count, db ++ pending)
    | Except.error _ => (Except.error (), db)

/-- Model of `get_random_quiz`: `shuffle` stands for `ORDER BY RANDOM()`
(an arbitrary reordering of the subject's rows), `LIMIT` is a `take`. -/
def get_random_quiz (conn : Bool) (db : List Row) (subject : List Char)
    (lim : Nat) (shuffle : List Row → List Row) : List QRow :=
  if !conn then []
  else
    ((shuffle (db.filter (fun r => r.subject == subject))).take lim).map
      (fun r => { question := r.question, options := loadsStrList r.options,
                  answer := r.answer, explanation := r.explanation })

/-- Model of `get_db_stats`: `GROUP BY subject` with `COUNT(*)`. -/
def get_db_stats (conn : Bool) (db : List Row) : List (List Char × Nat) :=
  if !conn then []
  else
    ((db.map Row.subject).dedup).map
      (fun s => (s, db.countP (fun r => r.subject == s)))

/-! ## AI response handling (`clean_json_string`,
`generate_batch_with_vision`, the four-batch generation loop) -/

/-- Model of `str.find`: lowest index of `c`, or `-1`. -/
def pyFind (t : List Char) (c : Char) : Int :=
  if c ∈ t then (t.indexOf c : Int) else -1

/-- Model of `str.rfind`: highest index of `c`, or `-1`. -/
def pyRFind (t : List Char) (c : Char) : Int :=
  if c ∈ t then (t.length : Int) - 1 - (t.reverse.indexOf c : Int) else -1

/-- Model of `clean_json_string`: slices from the first `[` to the last `]`
inclusive (Python slice semantics with the non-negative indices that occur
here), keeping the source's `end != -1` comparison on `rfind(...) + 1`. -/
def clean_json_string (t : List Char) : List Char :=
  let s := pyFind t '['
  let e := pyRFind t ']' + 1
  if s ≠ -1 ∧ e ≠ -1 then (t.drop s.toNat).take (e.toNat - s.toNat) else t

/-- Model of `generate_batch_with_vision`: the external call either raises
(`error`, including API failures) or yields response text; the `except`
branch turns any failure, parse failures included, into `[]`. -/
def generate_batch_with_vision (response : Except Unit (List Char)) :
    List RawQ :=
  match response with
  | Except.error _ => []
  | Except.ok raw =>
    match loadsObjs (clean_json_string raw) with
    | some qs => qs
    | none => []

/-- The `for i in range(4)` generation loop of tab 1: empty batches are
skipped with a warning, saved counts accumulate, and an exception escaping
`save_questions_to_db` aborts the remaining batches (it is caught only by
the `try` around the whole run).  Returns (total, table, aborted). -/
def genLoop (conn : Bool) (subj fn : List Char) :
    List (Except Unit (List Char)) → Nat → List Row → Nat × List Row × Bool
  | [], tot, db => (tot, db, false)
  | r :: rs, tot, db =>
    let qs := generate_batch_with_vision r
    if qs.isEmpty then genLoop conn subj fn rs tot db
    else
      match save_questions_to_db conn qs subj fn db with
      | (Except.ok k, db2) => genLoop conn subj fn rs (tot + k) db2
      | (Except.error _, db2) => (tot, db2, true)

/-! ## Grading (the results block of tab 2) -/

/-- Verdict for one question: the uppercased first character of the selected
option string (empty when no selection) is compared with the uppercased
first character of the stored answer.  `none` models an unanswered radio
(and an empty string is falsy, like `None`). -/
def gradeOne (userSel : Option (List Char)) (answer : List Char) : Bool :=
  (match userSel with
   | some (c :: _) => [pyUpper1 c]
   | _ => ([] : List Char)) ==
  (match answer with
   | c :: _ => [pyUpper1 c]
   | [] => ([] : List Char))

/-- The displayed "correct answer": the first option starting with the
uppercased first letter of the stored answer, else the stored answer
itself. -/
def correctDisplay (options : List (List Char)) (answer : List Char) :
    List Char :=
  match options.find? (fun o =>
      pyStartsWith
        (match answer with
         | c :: _ => [pyUpper1 c]
         | [] => ([] : List Char)) o) with
  | some o => o
  | none => answer

/-- The score accumulation of the results loop (`score += 1` on a correct
verdict), over the enumerated questions with the per-index selections. -/
def quizScore (qs : List QuizQ) (sel : Nat → Option (List Char)) : Nat :=
  qs.enum.foldl
    (fun acc iq => if gradeOne (sel iq.1) iq.2.answer then acc + 1 else acc) 0

/-! ## Binary64 model for `int(score/total*100)`

Python evaluates `score/total` as a correctly rounded IEEE-754 binary64
division, multiplies by `100` (again correctly rounded) and truncates with
`int(...)`.  A non-negative double is represented as a dyadic pair
`(mantissa, exponent)` with value `m * 2^e`. -/

/-- Floor of the base-2 logarithm (fuel-based, structural). -/
def lg2Aux : Nat → Nat → Nat
  | 0, _ => 0
  | f + 1, n => if n < 2 then 0 else lg2Aux f (n / 2) + 1

def lg2 (n : Nat) : Nat := lg2Aux n n

/-- Floor of the base-2 logarithm of the positive rational `n / d`. -/
def floorLog2Rat (n d : Nat) : Int :=
  let k := lg2 n
  let j := lg2 d
  if j ≤ k then
    (if 2 ^ (k - j) * d ≤ n then ((k : Int) - j) else ((k : Int) - j) - 1)
  else
    (if d ≤ n * 2 ^ (j - k) then -((j : Int) - k) else -((j : Int) - k) - 1)

/-- Round-to-nearest, ties to even, of `num / den` to an integer. -/
def rne (num den : Nat) : Nat :=
  let q := num / den
  let r := num % den
  if 2 * r < den then q
  else if den < 2 * r then q + 1
  else if q % 2 = 0 then q else q + 1

/-- Correctly rounded binary64 value of `n / d` (53-bit significand; the
quotients arising here are far from the subnormal and overflow ranges). -/
def roundRatToDbl (n d : Nat) : Nat × Int :=
  if n = 0 ∨ d = 0 then (0, 0)
  else
    let e := floorLog2Rat n d
    let sh := 52 - e
    if 0 ≤ sh then (rne (n * 2 ^ sh.toNat) d, e - 52)
    else (rne n (d * 2 ^ (-sh).toNat), e - 52)

/-- Correctly rounded binary64 product of the double `m * 2^e` with the
natural number `k`. -/
def dblMulNat (m : Nat) (e : Int) (k : Nat) : Nat × Int :=
  if 0 ≤ e then roundRatToDbl (m * k * 2 ^ e.toNat) 1
  else roundRatToDbl (m * k) (2 ^ (-e).toNat)

/-- Truncation `int(...)` of the non-negative double `m * 2^e`. -/
def dblTruncNat (m : Nat) (e : Int) : Nat :=
  if 0 ≤ e then m * 2 ^ e.toNat else m / 2 ^ (-e).toNat

/-- Model of the Python expression `int(score/total*100)`. -/
def pyPct (s t : Nat) : Nat :=
  let q := roundRatToDbl s t
  let p := dblMulNat q.1 q.2 100
  dblTruncNat p.1 p.2

/-! ## Specification-side definitions and concrete inputs -/

/-- Validation rule as the specification words it (for comparison with the
source's key check): normalized keys must contain `question`, `options` with
a non-empty sequence value, and `answer` with a non-empty string value. -/
def specValidRecord (q : RawQ) : Bool :=
  (dictGet? (lowerKeys q) qKey).isSome &&
  (match dictGet? (lowerKeys q) oKey with
   | some (PyVal.strList (_ :: _)) => true
   | _ => false) &&
  (match dictGet? (lowerKeys q) aKey with
   | some (PyVal.str (_ :: _)) => true
   | _ => false)

def exSubj : List Char := String.toList "Math"

def exFile : List Char := String.toList "notes.pdf"

/-- The options of spec Scenario C. -/
def exOptsC : List (List Char) :=
  [String.toList "A. Paris", String.toList "B. Rome",
   String.toList "C. Berlin", String.toList "D. Madrid"]

/-- A well-formed raw record (lowercase keys). -/
def exGood1 : RawQ :=
  [(qKey, PyVal.str (String.toList "Q1")),
   (oKey, PyVal.strList [String.toList "A. x", String.toList "B. y"]),
   (aKey, PyVal.str ['A'])]

/-- A well-formed raw record with a capitalized key and an explanation. -/
def exGood2 : RawQ :=
  [(String.toList "Question", PyVal.str (String.toList "Q2")),
   (oKey, PyVal.strList [String.toList "A. u", String.toList "B. v"]),
   (aKey, PyVal.str ['B']),
   (eKey, PyVal.str (String.toList "because"))]

/-- A raw record missing the `answer` key. -/
def exNoAnswer : RawQ :=
  [(qKey, PyVal.str (String.toList "Q3")),
   (oKey, PyVal.strList [String.toList "A. s"])]

/-- A raw record whose `options` value `json.dumps` cannot serialize. -/
def exBadOptions : RawQ :=
  [(qKey, PyVal.str (String.toList "QB")),
   (oKey, PyVal.other),
   (aKey, PyVal.str ['C'])]

/-- A raw record with all keys present but empty `options` and `answer`. -/
def exEmptyFields : RawQ :=
  [(qKey, PyVal.str (String.toList "QE")),
   (oKey, PyVal.strList []),
   (aKey, PyVal.str [])]

/-- A parsable AI response with one record, with commentary around the JSON. -/
def exResp1 : List Char :=
  String.toList
    "Here is the JSON:\n[\x7b\"question\": \"Q1\", \"options\": [\"A. x\", \"B. y\"], \"answer\": \"A\"\x7d]\nDone."

/-- An unparsable AI response (no JSON array in it). -/
def exResp3 : List Char :=
  String.toList "I am sorry, I cannot produce questions today."

/-- A parsable AI response with one record and an explanation field. -/
def exResp4 : List Char :=
  String.toList
    " [\x7b\"answer\": \"B\", \"options\": [\"A. u\", \"B. v\"], \"question\": \"Q4\", \"explanation\": \"why\"\x7d] "

/-- A one-question quiz for concrete checks. -/
def exQuiz : List QuizQ :=
  [{ question := String.toList "2+2?",
     options := [String.toList "A. 4", String.toList "B. 5"],
     answer := ['A'],
     explanation := String.toList "easy" }]

def exSel : Nat → Option (List Char) := fun _ => some (String.toList "A. 4")

/-- The record `json.loads` yields from `exResp4`. -/
def exRaw4 : RawQ :=
  [(aKey, PyVal.str ['B']),
   (oKey, PyVal.strList [String.toList "A. u", String.toList "B. v"]),
   (qKey, PyVal.str (String.toList "Q4")),
   (eKey, PyVal.str (String.toList "why"))]

/-- Input for the `clean_json_string` check. -/
def exCleanIn : List Char := String.toList "json noise [\"a\", \"b\"] trailing"

/-! ## Helper lemmas -/

theorem char_toNat_valid (c : Char) :
    c.toNat < 55296 ∨ (57343 < c.toNat ∧ c.toNat < 1114112) := by
  have h := c.valid
  unfold isValidChar at h
  rcases h with h | ⟨h1, h2⟩
  · exact Or.inl (UInt32.toNat_lt_of_lt (by decide) h)
  · exact Or.inr ⟨UInt32.lt_toNat_of_lt (by decide) h1,
      UInt32.toNat_lt_of_lt (by decide) h2⟩

theorem pyUpper1_of_upper {c : Char} (h1 : 65 ≤ c.toNat) (h2 : c.toNat ≤ 90) :
    pyUpper1 c = c := by
  unfold pyUpper1
  rw [if_neg]
  omega

theorem foldl_count_aux {α : Type} (p : α → Bool) (l : List α) (init : Nat) :
    l.foldl (fun acc x => if p x then acc + 1 else acc) init
      = init + l.countP p := by
  induction l generalizing init with
  | nil => simp
  | cons x xs ih =>
    by_cases h : p x
    · simp [List.countP_cons, h, ih]
      omega
    · simp [List.countP_cons, h, ih]

/-- Over-approximation bound used only to justify that the sampled quiz has at
most `lim` questions. -/
theorem get_random_quiz_length_le (conn : Bool) (db : List Row)
    (subject : List Char) (lim : Nat) (shuffle : List Row → List Row) :
    (get_random_quiz conn db subject lim shuffle).length ≤ lim := by
  unfold get_random_quiz
  cases conn <;> simp [List.length_take]

/-! ## C5: connection-failure semantics -/

/-- C5: when the store connection cannot be established, `get_random_quiz`
and `get_db_stats` return empty results, and `save_questions_to_db` returns
0 and leaves the table unchanged. -/
theorem conn_failure_semantics (qs : List RawQ) (subj fn : List Char)
    (db : List Row) (lim : Nat) (shuffle : List Row → List Row) :
    save_questions_to_db false qs subj fn db = (Except.ok 0, db) ∧
    get_random_quiz false db subj lim shuffle = [] ∧
    get_db_stats false db = [] :=
  ⟨rfl, rfl, rfl⟩

/-! ## C7: JSON extraction from raw response text -/

/-- C7: when the text contains both `[` and `]`, `clean_json_string` returns
the slice from the first `[` through the last `]` inclusive; with neither
bracket present it returns the text unchanged. -/
theorem clean_json_extracts (t : List Char) :
    ('[' ∈ t → ']' ∈ t →
      clean_json_string t =
        (t.drop (t.indexOf '[')).take
          (t.length - t.reverse.indexOf ']' - t.indexOf '[')) ∧
    ('[' ∉ t → ']' ∉ t → clean_json_string t = t) := by
  constructor
  · intro h1 h2
    have hi : t.indexOf '[' < t.length := List.indexOf_lt_length.2 h1
    have hj : t.reverse.indexOf ']' < t.length := by
      have h := List.indexOf_lt_length.2 (List.mem_reverse.2 h2)
      simpa using h
    simp only [clean_json_string, pyFind, pyRFind, if_pos h1, if_pos h2]
    rw [if_pos (by refine ⟨fun hc => ?_, fun hc => ?_⟩ <;> omega)]
    congr 1
    omega
  · intro h1 h2
    simp only [clean_json_string, pyFind, pyRFind, if_neg h1, if_neg h2]
    rw [if_neg]
    intro hc
    exact hc.1 rfl

/-- Concrete check of `clean_json_extracts` on a response with commentary. -/
theorem clean_json_extracts_check :
    '[' ∈ exCleanIn ∧ ']' ∈ exCleanIn ∧
    clean_json_string exCleanIn =
      (exCleanIn.drop (exCleanIn.indexOf '[')).take
        (exCleanIn.length - exCleanIn.reverse.indexOf ']' -
          exCleanIn.indexOf '[') :=
  ⟨by decide, by decide,
   (clean_json_extracts exCleanIn).1 (by decide) (by decide)⟩

/-! ## C2: grading is not verbatim text equality -/

/-- C2 counterexample: with stored answer `"42"` (longer than one character)
and options `["42", "43"]` (no letter-prefix scheme), selecting `"43"` is
graded correct although it differs from the stored answer, refuting the
claim that grading is exact string equality in this mode. -/
theorem direct_equality_grading_refuted :
    String.toList "43" ∈ [String.toList "42", String.toList "43"] ∧
    String.toList "43" ≠ String.toList "42" ∧
    (String.toList "42").length = 2 ∧
    gradeOne (some (String.toList "43")) (String.toList "42") = true :=
  ⟨by decide, by decide, by decide, by decide⟩

/-- C2 amended: whatever the shape of the stored answer, grading compares
only the uppercased first characters of the selection and of the stored
answer; in particular a selection equal to the stored answer is graded
correct, but so is any other selection sharing its first character. -/
theorem first_letter_grading (ans sel : List Char) (h1 : ans ≠ [])
    (h2 : sel ≠ []) :
    gradeOne (some sel) ans =
      (pyUpper1 (sel.headD 'A') == pyUpper1 (ans.headD 'A')) ∧
    (sel = ans → gradeOne (some sel) ans = true) := by
  cases ans with
  | nil => exact absurd rfl h1
  | cons a as =>
    cases sel with
    | nil => exact absurd rfl h2
    | cons c cs =>
      constructor
      · simp [gradeOne]
      · intro heq
        rw [heq]
        simp [gradeOne]

/-- Concrete check of `first_letter_grading` on spec Scenario D data. -/
theorem first_letter_grading_check :
    gradeOne (some (String.toList "5")) (String.toList "5") = true ∧
    gradeOne (some (String.toList "6")) (String.toList "5") = false :=
  ⟨(first_letter_grading (String.toList "5") (String.toList "5")
      (by decide) (by decide)).2 rfl,
   by
    rw [(first_letter_grading (String.toList "5") (String.toList "6")
      (by decide) (by decide)).1]
    decide⟩

/-! ## C10: the verdict depends only on uppercased first characters -/

/-- C10: two non-empty selections with the same uppercased first character
receive the same verdict on any question, and a missing selection is graded
incorrect whenever the stored answer is non-empty. -/
theorem grading_first_letter_only (ans u1 u2 : List Char) (c1 c2 : Char)
    (h1 : u1.head? = some c1) (h2 : u2.head? = some c2)
    (he : pyUpper1 c1 = pyUpper1 c2) :
    gradeOne (some u1) ans = gradeOne (some u2) ans ∧
    (ans ≠ [] → gradeOne none ans = false) := by
  constructor
  · cases u1 with
    | nil => simp at h1
    | cons b1 t1 =>
      cases u2 with
      | nil => simp at h2
      | cons b2 t2 =>
        simp only [List.head?] at h1 h2
        cases h1
        cases h2
        simp only [gradeOne, he]
  · intro hne
    cases ans with
    | nil => exact absurd rfl hne
    | cons a as => simp [gradeOne]

/-- Concrete check of `grading_first_letter_only`. -/
theorem grading_first_letter_only_check :
    gradeOne (some (String.toList "B. Rome")) ['B'] =
      gradeOne (some (String.toList "banana")) ['B'] ∧
    gradeOne none ['B'] = false :=
  ⟨(grading_first_letter_only ['B'] (String.toList "B. Rome")
      (String.toList "banana") 'B' 'b' rfl rfl (by decide)).1,
   (grading_first_letter_only ['B'] (String.toList "B. Rome")
      (String.toList "banana") 'B' 'b' rfl rfl (by decide)).2 (by decide)⟩

/-! ## C1: letter-prefixed options with a bare-letter answer -/

/-- With non-empty options whose first characters are pairwise distinct,
the scan for an option starting with the answer letter finds exactly the
member whose first character is that letter. -/
theorem find_first_letter (opts : List (List Char)) (a : Char)
    (sel : List Char) (hne : ∀ o ∈ opts, o ≠ [])
    (hnd : (opts.map List.head?).Nodup)
    (hsel : sel ∈ opts) (hh : sel.head? = some a) :
    opts.find? (fun o => pyStartsWith [a] o) = some sel := by
  induction opts with
  | nil => simp at hsel
  | cons o os ih =>
    cases o with
    | nil => exact absurd rfl (hne [] (List.mem_cons_self _ _))
    | cons b t =>
      simp only [List.map_cons, List.head?_cons, List.nodup_cons] at hnd
      have hps : pyStartsWith [a] (b :: t) = (a == b) := by
        simp [pyStartsWith]
      by_cases hab : a = b
      · subst hab
        rw [List.find?_cons_of_pos _ (by simp [hps])]
        rcases List.mem_cons.1 hsel with rfl | hmem
        · rfl
        · exact absurd (List.mem_map.2 ⟨sel, hmem, hh⟩) hnd.1
      · rw [List.find?_cons_of_neg _ (by simp [hps, hab])]
        refine ih (fun o ho => hne o (List.mem_cons_of_mem _ ho)) hnd.2 ?_
        rcases List.mem_cons.1 hsel with rfl | hmem
        · simp only [List.head?_cons] at hh
          exact absurd (Option.some.inj hh).symm hab
        · exact hmem

/-- C1: for a record whose stored answer is a bare capital letter and whose
options are prefixed with pairwise distinct capital letters and a dot,
selecting the option whose leading letter matches the answer is graded
correct, selecting any other option is graded incorrect, and the displayed
correct answer resolves to the full matching option. -/
theorem letter_mode_grading (opts : List (List Char)) (a : Char)
    (sel : List Char)
    (hcaps : ∀ o ∈ opts,
      ∃ c r, o = c :: '.' :: r ∧ 65 ≤ c.toNat ∧ c.toNat ≤ 90)
    (hnd : (opts.map List.head?).Nodup)
    (ha : 65 ≤ a.toNat ∧ a.toNat ≤ 90)
    (hsel : sel ∈ opts) (hh : sel.head? = some a) :
    gradeOne (some sel) [a] = true ∧
    (∀ o ∈ opts, o ≠ sel → gradeOne (some o) [a] = false) ∧
    correctDisplay opts [a] = sel := by
  obtain ⟨c, r, rfl, hc1, hc2⟩ := hcaps sel hsel
  have hca : c = a := by
    simp only [List.head?] at hh
    exact Option.some.inj hh
  subst hca
  refine ⟨?_, ?_, ?_⟩
  · simp [gradeOne]
  · intro o ho hneq
    obtain ⟨c', r', rfl, hc1', hc2'⟩ := hcaps o ho
    have hne' : c' ≠ c := by
      intro hcc
      subst hcc
      exact hneq (List.inj_on_of_nodup_map hnd ho hsel (by simp))
    simp [gradeOne, pyUpper1_of_upper hc1' hc2', pyUpper1_of_upper hc1 hc2,
      hne']
  · unfold correctDisplay
    rw [show (match ([c] : List Char) with
        | c :: _ => [pyUpper1 c]
        | [] => ([] : List Char)) = [c] by
      simp [pyUpper1_of_upper hc1 hc2]]
    rw [find_first_letter opts c (c :: '.' :: r)
      (fun o ho => by obtain ⟨d, s, rfl, _, _⟩ := hcaps o ho; simp)
      hnd hsel (by simp)]

/-- Concrete check of `letter_mode_grading` on spec Scenario C. -/
theorem letter_mode_grading_check :
    gradeOne (some (String.toList "B. Rome")) ['B'] = true ∧
    gradeOne (some (String.toList "A. Paris")) ['B'] = false ∧
    correctDisplay exOptsC ['B'] = String.toList "B. Rome" := by
  have h := letter_mode_grading exOptsC 'B' (String.toList "B. Rome")
    (by
      intro o ho
      simp only [exOptsC, List.mem_cons, List.not_mem_nil, or_false] at ho
      rcases ho with rfl | rfl | rfl | rfl
      · exact ⟨'A', String.toList " Paris", rfl, by decide, by decide⟩
      · exact ⟨'B', String.toList " Rome", rfl, by decide, by decide⟩
      · exact ⟨'C', String.toList " Berlin", rfl, by decide, by decide⟩
      · exact ⟨'D', String.toList " Madrid", rfl, by decide, by decide⟩)
    (by decide) (by decide) (by decide) (by decide)
  exact ⟨h.1, h.2.1 (String.toList "A. Paris") (by decide) (by decide),
    h.2.2⟩

/-! ## C3: what `save_questions_to_db` actually validates -/

/-- C3 counterexample: a record with all three keys present but an empty
`options` sequence and an empty `answer` string is inserted and counted
(return value 1), although the spec-side validation would reject it. -/
theorem save_validation_refuted :
    (save_questions_to_db true [exEmptyFields] exSubj exFile []).1 =
      Except.ok 1 ∧
    specValidRecord exEmptyFields = false :=
  ⟨rfl, rfl⟩

/-- The save loop with no serialization failure: it inserts exactly the
records passing the key-presence check and counts them. -/
theorem saveLoop_ok (qs : List RawQ) (subj fn : List Char)
    (h : ∀ q ∈ qs, hasReqKeys q = true →
      (dumpsVal ((dictGet? (lowerKeys q) oKey).getD PyVal.other)).isSome
        = true) :
    ∀ pending count, saveLoop qs subj fn pending count =
      Except.ok (pending ++ (qs.filter hasReqKeys).map (rowOf subj fn),
        count + (qs.filter hasReqKeys).length) := by
  induction qs with
  | nil =>
    intro pending count
    simp [saveLoop]
  | cons q rest ih =>
    intro pending count
    by_cases hq : hasReqKeys q
    · have hd := h q (List.mem_cons_self _ _) hq
      obtain ⟨os, hos⟩ := Option.isSome_iff_exists.1 hd
      rw [show saveLoop (q :: rest) subj fn pending count =
          saveLoop rest subj fn (pending ++ [rowOf subj fn q]) (count + 1) by
        simp [saveLoop, hq, hos]]
      rw [ih (fun q' hq' => h q' (List.mem_cons_of_mem _ hq'))]
      simp [List.filter_cons, hq, List.append_assoc]
      omega
    · rw [show saveLoop (q :: rest) subj fn pending count =
          saveLoop rest subj fn pending count by simp [saveLoop, hq]]
      rw [ih (fun q' hq' => h q' (List.mem_cons_of_mem _ hq'))]
      simp [List.filter_cons, hq]

/-- C3 amended: with an open connection and no serialization failure,
`save_questions_to_db` inserts exactly the records whose lowercased keys
contain `question`, `options` and `answer` (value emptiness is not
checked), and returns that post-check count. -/
theorem save_key_check_count (qs : List RawQ) (subj fn : List Char)
    (db : List Row)
    (h : ∀ q ∈ qs, hasReqKeys q = true →
      (dumpsVal ((dictGet? (lowerKeys q) oKey).getD PyVal.other)).isSome
        = true) :
    save_questions_to_db true qs subj fn db =
      (Except.ok (qs.filter hasReqKeys).length,
       db ++ (qs.filter hasReqKeys).map (rowOf subj fn)) := by
  unfold save_questions_to_db
  rw [show saveLoop qs subj fn [] 0 =
      Except.ok ((qs.filter hasReqKeys).map (rowOf subj fn),
        (qs.filter hasReqKeys).length) by
    rw [saveLoop_ok qs subj fn h [] 0]
    simp]
  simp

/-- Concrete check of `save_key_check_count` on a Scenario-B style batch:
three records of which one misses `answer` give a count of 2. -/
theorem save_key_check_count_check :
    save_questions_to_db true [exGood1, exNoAnswer, exGood2] exSubj exFile []
      = (Except.ok 2,
         [rowOf exSubj exFile exGood1, rowOf exSubj exFile exGood2]) := by
  have h := save_key_check_count [exGood1, exNoAnswer, exGood2] exSubj exFile
    [] (by decide)
  exact h

/-! ## C6: one bad record aborts the whole batch -/

/-- C6 counterexample: in a batch of three records where the middle one has
unserializable `options`, the two well-formed records are not inserted
either — the call raises and the table is unchanged — refuting the claim
that the remaining records of the batch are still saved and counted. -/
theorem batch_insert_failure_refuted :
    hasReqKeys exGood1 = true ∧ hasReqKeys exGood2 = true ∧
    save_questions_to_db true [exGood1, exBadOptions, exGood2] exSubj exFile
      [] = (Except.error (), []) :=
  ⟨rfl, rfl, rfl⟩

/-- The save loop raises as soon as it reaches a record that passes the key
check but whose `options` value `json.dumps` cannot serialize. -/
theorem saveLoop_error (qs : List RawQ) (subj fn : List Char)
    (h : ∃ q ∈ qs, hasReqKeys q = true ∧
      dumpsVal ((dictGet? (lowerKeys q) oKey).getD PyVal.other) = none) :
    ∀ pending count, saveLoop qs subj fn pending count = Except.error () := by
  induction qs with
  | nil =>
    obtain ⟨q, hq, _⟩ := h
    simp at hq
  | cons q rest ih =>
    intro pending count
    obtain ⟨w, hw, hwk, hwd⟩ := h
    by_cases hq : hasReqKeys q
    · cases hd : dumpsVal ((dictGet? (lowerKeys q) oKey).getD PyVal.other)
        with
      | none => simp [saveLoop, hq, hd]
      | some os =>
        rw [show saveLoop (q :: rest) subj fn pending count =
            saveLoop rest subj fn (pending ++ [rowOf subj fn q]) (count + 1)
          by simp [saveLoop, hq, hd]]
        apply ih
        rcases List.mem_cons.1 hw with rfl | hmem
        · rw [hwd] at hd
          exact absurd hd (by simp)
        · exact ⟨w, hmem, hwk, hwd⟩
    · rw [show saveLoop (q :: rest) subj fn pending count =
          saveLoop rest subj fn pending count by simp [saveLoop, hq]]
      apply ih
      rcases List.mem_cons.1 hw with rfl | hmem
      · exact absurd hwk hq
      · exact ⟨w, hmem, hwk, hwd⟩

/-- C6 amended: a batch containing a record that passes the key check but
whose `options` cannot be serialized makes the whole call raise; nothing at
all from the batch is committed (the table is unchanged), because the commit
only runs after the loop. -/
theorem serialization_failure_aborts_batch (qs : List RawQ)
    (subj fn : List Char) (db : List Row)
    (h : ∃ q ∈ qs, hasReqKeys q = true ∧
      dumpsVal ((dictGet? (lowerKeys q) oKey).getD PyVal.other) = none) :
    save_questions_to_db true qs subj fn db = (Except.error (), db) := by
  unfold save_questions_to_db
  rw [saveLoop_error qs subj fn h [] 0]
  simp

/-- Concrete check of `serialization_failure_aborts_batch`. -/
theorem serialization_failure_aborts_batch_check :
    save_questions_to_db true [exGood1, exBadOptions] exSubj exFile [] =
      (Except.error (), []) :=
  serialization_failure_aborts_batch [exGood1, exBadOptions] exSubj exFile []
    ⟨exBadOptions, List.mem_cons_of_mem _ (List.mem_cons_self _ _), rfl, rfl⟩

/-! ## C9: score and percentage -/

/-- On every total a quiz can actually have (at most the `LIMIT 20` of
`get_random_quiz`), truncating the binary64 computation `score/total*100`
agrees with integer truncation of the exact value. -/
theorem pyPct_eq_trunc : ∀ t, t < 21 → ∀ s, s ≤ t → 0 < t →
    pyPct s t = 100 * s / t := by decide

/-- C9: for a submitted quiz (1 to 20 questions), the score is the number of
questions graded correct, and the displayed percentage
`int(score/total*100)` equals the integer part of `100 * score / total`. -/
theorem score_and_percentage (qs : List QuizQ)
    (sel : Nat → Option (List Char)) (h1 : 0 < qs.length)
    (h2 : qs.length ≤ 20) :
    quizScore qs sel =
      qs.enum.countP (fun iq => gradeOne (sel iq.1) iq.2.answer) ∧
    pyPct (quizScore qs sel) qs.length = 100 * quizScore qs sel / qs.length
    := by
  have hc : quizScore qs sel =
      qs.enum.countP (fun iq => gradeOne (sel iq.1) iq.2.answer) := by
    unfold quizScore
    rw [foldl_count_aux]
    simp
  refine ⟨hc, ?_⟩
  have hle : quizScore qs sel ≤ qs.length := by
    rw [hc]
    calc qs.enum.countP (fun iq => gradeOne (sel iq.1) iq.2.answer)
        ≤ qs.enum.length := List.countP_le_length _
    _ = qs.length := List.enum_length
  exact pyPct_eq_trunc qs.length (by omega) _ hle h1

/-- Concrete check of `score_and_percentage` on a one-question quiz. -/
theorem score_and_percentage_check :
    quizScore exQuiz exSel =
      exQuiz.enum.countP (fun iq => gradeOne (exSel iq.1) iq.2.answer) ∧
    pyPct (quizScore exQuiz exSel) exQuiz.length =
      100 * quizScore exQuiz exSel / exQuiz.length :=
  score_and_percentage exQuiz exSel (by decide) (by decide)

/-! ## C4: serialize/deserialize round trip for options -/

theorem hexVal_hexDig : ∀ k, k < 16 → hexVal (hexDig k) = some k := by decide

theorem pjs_hex_bmp (n : Nat) (hn : n < 65536)
    (h1 : ¬(55296 ≤ n ∧ n ≤ 56319)) (h2 : ¬(56320 ≤ n ∧ n ≤ 57343))
    (acc rest : List Char) :
    pjs (PState.hx none 0 0) acc (hex4 n ++ rest) =
      pjs PState.norm (Char.ofNat n :: acc) rest := by
  have e3 := hexVal_hexDig (n / 4096 % 16) (Nat.mod_lt _ (by omega))
  have e2 := hexVal_hexDig (n / 256 % 16) (Nat.mod_lt _ (by omega))
  have e1 := hexVal_hexDig (n / 16 % 16) (Nat.mod_lt _ (by omega))
  have e0 := hexVal_hexDig (n % 16) (Nat.mod_lt _ (by omega))
  have hrec : ((n / 4096 % 16 * 16 + n / 256 % 16) * 16
      + n / 16 % 16) * 16 + n % 16 = n := by omega
  simp [hex4, pjs, e3, e2, e1, e0, hrec, h1, h2]

theorem pjs_hex_hi (n : Nat) (h1 : 55296 ≤ n ∧ n ≤ 56319)
    (acc rest : List Char) :
    pjs (PState.hx none 0 0) acc (hex4 n ++ rest) =
      pjs (PState.hiSlash n) acc rest := by
  have e3 := hexVal_hexDig (n / 4096 % 16) (Nat.mod_lt _ (by omega))
  have e2 := hexVal_hexDig (n / 256 % 16) (Nat.mod_lt _ (by omega))
  have e1 := hexVal_hexDig (n / 16 % 16) (Nat.mod_lt _ (by omega))
  have e0 := hexVal_hexDig (n % 16) (Nat.mod_lt _ (by omega))
  have hrec : ((n / 4096 % 16 * 16 + n / 256 % 16) * 16
      + n / 16 % 16) * 16 + n % 16 = n := by omega
  simp [hex4, pjs, e3, e2, e1, e0, hrec, h1]

theorem pjs_hex_lo (h n : Nat) (h1 : 56320 ≤ n ∧ n ≤ 57343)
    (acc rest : List Char) :
    pjs (PState.hx (some h) 0 0) acc (hex4 n ++ rest) =
      pjs PState.norm
        (Char.ofNat (65536 + (h - 55296) * 1024 + (n - 56320)) :: acc) rest
    := by
  have e3 := hexVal_hexDig (n / 4096 % 16) (Nat.mod_lt _ (by omega))
  have e2 := hexVal_hexDig (n / 256 % 16) (Nat.mod_lt _ (by omega))
  have e1 := hexVal_hexDig (n / 16 % 16) (Nat.mod_lt _ (by omega))
  have e0 := hexVal_hexDig (n % 16) (Nat.mod_lt _ (by omega))
  have hrec : ((n / 4096 % 16 * 16 + n / 256 % 16) * 16
      + n / 16 % 16) * 16 + n % 16 = n := by omega
  simp [hex4, pjs, e3, e2, e1, e0, hrec, h1]

theorem pjs_u_step (acc l : List Char) :
    pjs PState.norm acc ('\\' :: 'u' :: l) = pjs (PState.hx none 0 0) acc l
    := by simp [pjs]

theorem pjs_hiSlash_step (h : Nat) (acc l : List Char) :
    pjs (PState.hiSlash h) acc ('\\' :: 'u' :: l) =
      pjs (PState.hx (some h) 0 0) acc l := by simp [pjs]

/-- Scanning the escape of one character consumes it back. -/
theorem esc_step (c : Char) (acc rest : List Char) :
    pjs PState.norm acc (escChar c ++ rest) =
      pjs PState.norm (c :: acc) rest := by
  by_cases h1 : c = '"'
  · subst h1; simp [escChar, pjs]
  by_cases h2 : c = '\\'
  · subst h2; simp [escChar, pjs]
  by_cases h3 : c = Char.ofNat 8
  · subst h3; simp [escChar, pjs]
  by_cases h4 : c = Char.ofNat 12
  · subst h4; simp [escChar, pjs]
  by_cases h5 : c = '\n'
  · subst h5; simp [escChar, pjs]
  by_cases h6 : c = Char.ofNat 13
  · subst h6; simp [escChar, pjs]
  by_cases h7 : c = '\t'
  · subst h7; simp [escChar, pjs]
  have hval := char_toNat_valid c
  by_cases h8 : c.toNat < 32 ∨ 126 < c.toNat
  · by_cases h9 : c.toNat < 65536
    · rw [show escChar c = '\\' :: 'u' :: hex4 c.toNat by
        simp [escChar, h1, h2, h3, h4, h5, h6, h7, h8, h9]]
      rw [show ('\\' :: 'u' :: hex4 c.toNat) ++ rest =
        '\\' :: 'u' :: (hex4 c.toNat ++ rest) by simp]
      rw [pjs_u_step]
      rw [pjs_hex_bmp c.toNat h9 (by omega) (by omega) acc rest,
        Char.ofNat_toNat]
    · rw [show escChar c =
        ('\\' :: 'u' :: hex4 (55296 + (c.toNat - 65536) / 1024)) ++
        ('\\' :: 'u' :: hex4 (56320 + (c.toNat - 65536) % 1024)) by
        simp [escChar, h1, h2, h3, h4, h5, h6, h7, h8, h9]]
      have hlt : c.toNat < 1114112 := by omega
      have hdiv : (c.toNat - 65536) / 1024 ≤ 1023 := by omega
      have hmod : (c.toNat - 65536) % 1024 ≤ 1023 :=
        Nat.le_of_lt_succ (Nat.mod_lt _ (by omega))
      rw [show (('\\' :: 'u' :: hex4 (55296 + (c.toNat - 65536) / 1024)) ++
          ('\\' :: 'u' :: hex4 (56320 + (c.toNat - 65536) % 1024))) ++ rest =
        '\\' :: 'u' :: (hex4 (55296 + (c.toNat - 65536) / 1024) ++
          ('\\' :: 'u' :: (hex4 (56320 + (c.toNat - 65536) % 1024) ++ rest)))
        by simp]
      rw [pjs_u_step]
      rw [pjs_hex_hi _ (by omega) acc _]
      rw [pjs_hiSlash_step]
      rw [pjs_hex_lo _ _ (by omega) acc rest]
      have hrec : 65536 + (55296 + (c.toNat - 65536) / 1024 - 55296) * 1024 +
          (56320 + (c.toNat - 65536) % 1024 - 56320) = c.toNat := by omega
      rw [hrec, Char.ofNat_toNat]
  · rw [show escChar c = [c] by
      simp [escChar, h1, h2, h3, h4, h5, h6, h7, h8]]
    have hge : ¬c.toNat < 32 := by omega
    simp [pjs, h1, h2, hge]

/-- Scanning an escaped string body up to its closing quote recovers the
string. -/
theorem escape_pjs (s : List Char) : ∀ acc rest,
    pjs PState.norm acc (escapeStr s ++ '"' :: rest) =
      some (acc.reverse ++ s, rest) := by
  induction s with
  | nil =>
    intro acc rest
    simp [escapeStr, pjs]
  | cons c s' ih =>
    intro acc rest
    rw [show escapeStr (c :: s') ++ '"' :: rest =
      escChar c ++ (escapeStr s' ++ '"' :: rest) by simp [escapeStr]]
    rw [esc_step, ih]
    simp

theorem parseOneStr_quote (s rest : List Char) :
    parseOneStr (quoteStr s ++ rest) = some (s, rest) := by
  rw [show quoteStr s ++ rest = '"' :: (escapeStr s ++ '"' :: rest) by
    simp [quoteStr]]
  rw [show parseOneStr ('"' :: (escapeStr s ++ '"' :: rest)) =
    pjs PState.norm [] (escapeStr s ++ '"' :: rest) from rfl]
  rw [escape_pjs]
  simp

theorem skipWs_quote (y A : List Char) :
    skipWs (quoteStr y ++ A) = quoteStr y ++ A := by
  rw [show quoteStr y ++ A = '"' :: (escapeStr y ++ ['"'] ++ A) by
    simp [quoteStr]]
  simp [skipWs, isWsChar]

theorem joinTail_len (xs : List (List Char)) :
    xs.length ≤ (joinTail xs).length := by
  induction xs with
  | nil => simp [joinTail]
  | cons y ys ih =>
    simp [joinTail]
    omega

theorem commaJoin_map (x : List Char) (xs : List (List Char)) :
    commaJoin ((x :: xs).map quoteStr) = quoteStr x ++ joinTail xs := by
  induction xs generalizing x with
  | nil => simp [commaJoin, joinTail]
  | cons y ys ih =>
    rw [show (x :: y :: ys).map quoteStr =
      quoteStr x :: quoteStr y :: ys.map quoteStr by simp]
    rw [show commaJoin (quoteStr x :: quoteStr y :: ys.map quoteStr) =
      quoteStr x ++ ',' :: ' ' :: commaJoin (quoteStr y :: ys.map quoteStr)
      from rfl]
    rw [show quoteStr y :: ys.map quoteStr = (y :: ys).map quoteStr by simp]
    rw [ih y]
    simp [joinTail]

theorem parseElemsF_round (xs : List (List Char)) :
    ∀ f x rest, xs.length < f →
      parseElemsF f (quoteStr x ++ (joinTail xs ++ ']' :: rest)) =
        some (x :: xs, rest) := by
  induction xs with
  | nil =>
    intro f x rest hf
    cases f with
    | zero => omega
    | succ f' =>
      have hp := parseOneStr_quote x (']' :: rest)
      simp only [joinTail, List.nil_append]
      simp [parseElemsF, hp, skipWs, isWsChar]
  | cons y ys ih =>
    intro f x rest hf
    cases f with
    | zero => omega
    | succ f' =>
      have hp := parseOneStr_quote x
        (',' :: ' ' :: (quoteStr y ++ (joinTail ys ++ ']' :: rest)))
      rw [show quoteStr x ++ (joinTail (y :: ys) ++ ']' :: rest) =
          quoteStr x ++ (',' :: ' ' ::
            (quoteStr y ++ (joinTail ys ++ ']' :: rest))) by
        simp [joinTail]]
      have hsq := skipWs_quote y (joinTail ys ++ ']' :: rest)
      have hih := ih f' y rest (by simp at hf; omega)
      have hih2 : parseElemsF f'
          ('"' :: (escapeStr y ++ '"' :: (joinTail ys ++ ']' :: rest))) =
          some (y :: ys, rest) := by
        rw [show ('"' :: (escapeStr y ++ '"' :: (joinTail ys ++ ']' :: rest))
            : List Char) = quoteStr y ++ (joinTail ys ++ ']' :: rest) by
          simp [quoteStr]]
        exact hih
      simp [parseElemsF, hp, skipWs, isWsChar, hsq, hih, hih2]

theorem loadsStrList_cons_eq (A : List Char) :
    loadsStrList ('[' :: A) =
      (match skipWs A with
       | ']' :: r2 => if skipWs r2 = [] then some [] else none
       | r1 =>
         match parseElemsF (('[' :: A).length + 1) r1 with
         | some (elems, rest) =>
           if skipWs rest = [] then some elems else none
         | none => none) := rfl

theorem loadsStrList_dumpsOptions (l : List (List Char)) :
    loadsStrList (dumpsOptions l) = some l := by
  cases l with
  | nil => rfl
  | cons x xs =>
    have hf : xs.length < ('[' :: (quoteStr x ++ (joinTail xs ++ [']']))).length + 1 := by
      have h1 := joinTail_len xs
      simp [List.length_append]
      omega
    have hpe := parseElemsF_round xs
      (('[' :: (quoteStr x ++ (joinTail xs ++ [']']))).length + 1) x [] hf
    rw [show dumpsOptions (x :: xs) =
      '[' :: (quoteStr x ++ (joinTail xs ++ [']'])) by
      unfold dumpsOptions
      rw [commaJoin_map]
      simp [List.append_assoc]]
    rw [loadsStrList_cons_eq]
    rw [skipWs_quote x (joinTail xs ++ [']'])]
    have hq : quoteStr x ++ (joinTail xs ++ [']']) =
        '"' :: (escapeStr x ++ ['"'] ++ (joinTail xs ++ [']'])) := by
      simp [quoteStr]
    rw [hq] at hpe ⊢
    simp at hpe
    simp [hpe, skipWs]

/-- C4: serializing an ordered sequence of option strings the way
`save_questions_to_db` does (`json.dumps`) and deserializing it the way
`get_random_quiz` does (`json.loads`) reproduces the original sequence
exactly, order and content included. -/
theorem options_roundtrip (l : List (List Char)) :
    dumpsVal (PyVal.strList l) = some (dumpsOptions l) ∧
    loadsStrList (dumpsOptions l) = some l :=
  ⟨rfl, loadsStrList_dumpsOptions l⟩

/-! ## C8: partial success of the four-batch generation run -/

/-- Saving an empty batch inserts nothing and returns 0. -/
theorem save_nil (conn : Bool) (subj fn : List Char) (db : List Row) :
    save_questions_to_db conn [] subj fn db = (Except.ok 0, db) := by
  cases conn <;> simp [save_questions_to_db, saveLoop]

/-- One successful (or empty) batch advances the loop, adding its saved
count. -/
theorem genLoop_step (conn : Bool) (subj fn : List Char)
    (r : Except Unit (List Char)) (rs : List (Except Unit (List Char)))
    (tot : Nat) (db db' : List Row) (k : Nat)
    (h : save_questions_to_db conn (generate_batch_with_vision r) subj fn db
      = (Except.ok k, db')) :
    genLoop conn subj fn (r :: rs) tot db =
      genLoop conn subj fn rs (tot + k) db' := by
  by_cases he : (generate_batch_with_vision r).isEmpty
  · have hnil : generate_batch_with_vision r = [] := by
      cases hh : generate_batch_with_vision r with
      | nil => rfl
      | cons a as => rw [hh] at he; simp [List.isEmpty] at he
    rw [hnil] at h
    rw [save_nil] at h
    rw [Prod.mk.injEq] at h
    obtain ⟨hok, hdb⟩ := h
    injection hok with hk
    subst hdb
    rw [show genLoop conn subj fn (r :: rs) tot db =
      genLoop conn subj fn rs tot db by simp [genLoop, he]]
    rw [← hk, Nat.add_zero]
  · simp [genLoop, he, h]

/-- C8: in a four-batch generation run where the third response fails JSON
extraction or parsing, that batch contributes zero questions and the run
continues: all other batches are processed and the total equals the sum of
their saved counts (provided no save call raises). -/
theorem generation_loop_partial_success (conn : Bool)
    (r1 r2 r4 : Except Unit (List Char)) (t3 : List Char)
    (subj fn : List Char) (db db1 db2 db4 : List Row) (k1 k2 k4 : Nat)
    (h3 : loadsObjs (clean_json_string t3) = none)
    (h1 : save_questions_to_db conn (generate_batch_with_vision r1) subj fn
      db = (Except.ok k1, db1))
    (h2 : save_questions_to_db conn (generate_batch_with_vision r2) subj fn
      db1 = (Except.ok k2, db2))
    (h4 : save_questions_to_db conn (generate_batch_with_vision r4) subj fn
      db2 = (Except.ok k4, db4)) :
    genLoop conn subj fn [r1, r2, Except.ok t3, r4] 0 db =
      (k1 + k2 + k4, db4, false) := by
  have hb3 : generate_batch_with_vision (Except.ok t3) = [] := by
    simp [generate_batch_with_vision, h3]
  rw [genLoop_step conn subj fn r1 _ 0 db db1 k1 h1]
  rw [genLoop_step conn subj fn r2 _ (0 + k1) db1 db2 k2 h2]
  rw [show genLoop conn subj fn [Except.ok t3, r4] (0 + k1 + k2) db2 =
    genLoop conn subj fn [r4] (0 + k1 + k2) db2 by
    simp [genLoop, hb3]]
  rw [genLoop_step conn subj fn r4 _ (0 + k1 + k2) db2 db4 k4 h4]
  simp [genLoop]

/-- Concrete check of `generation_loop_partial_success`: batch 1 saves one
question, batch 2 raises in the external call, batch 3 is unparsable text,
batch 4 saves one question; total 2, no abort. -/
theorem generation_loop_partial_success_check :
    genLoop true exSubj exFile
      [Except.ok exResp1, Except.error (), Except.ok exResp3,
       Except.ok exResp4] 0 [] =
      (2, [rowOf exSubj exFile exGood1, rowOf exSubj exFile exRaw4], false)
    :=
  generation_loop_partial_success true (Except.ok exResp1) (Except.error ())
    (Except.ok exResp4) exResp3 exSubj exFile []
    [rowOf exSubj exFile exGood1] [rowOf exSubj exFile exGood1]
    [rowOf exSubj exFile exGood1, rowOf exSubj exFile exRaw4] 1 0 1
    rfl rfl rfl rfl
